import Mathlib

/-!
Shallow embedding of the monica-rag retrieval core: the text projection
(`utils/text_processing.py`), the SQLite-backed embedding store
(`storage/database.py`), and the retrieval engine (`models/rag.py`).

Modelling conventions:
* Python strings are embedded as `List Char` (`PyStr`); Python dicts as
  insertion-ordered association lists, which is what CPython dicts guarantee.
* A 32-bit float is carried by its bit pattern, a natural number below 2^32;
  `numpy.ndarray.tobytes` / `numpy.frombuffer` become an explicit little-endian
  4-byte encoding and its decoder.  Where the numeric value of a float matters
  (cosine similarity), an interpretation `val : Nat → ℚ` maps bit patterns to
  exact rational values; float arithmetic is idealised as exact arithmetic.
* `json.dumps` / `json.loads` (Python standard library, external to the
  repository) are lossless on the record values the code stores, so the record
  column carries the structured record itself.
* A float division whose denominator is zero (here necessarily `0/0`) produces
  a NaN; NaN is modelled as `none` in `Option Score`.
-/

/-- Python strings, embedded as lists of characters. -/
abbrev PyStr := List Char

/-- Whitespace characters removed by Python `str.strip()` (the ASCII subset,
which is all that can arise from the f-string `f"{first} {last}"`). -/
def isPySpace (c : Char) : Bool :=
  c = ' ' || c = '\t' || c = '\n' || c = '\r' || c = '\x0b' || c = '\x0c'

/-- Python `str.strip()`: drop whitespace from both ends. -/
def pyStrip (s : PyStr) : PyStr :=
  ((s.dropWhile isPySpace).reverse.dropWhile isPySpace).reverse

/-- Python `"\n".join(parts)`. -/
def joinNL : List PyStr → PyStr
  | [] => []
  | [p] => p
  | p :: ps => p ++ '\n' :: joinNL ps

/-- Python `s.split("\n")`: the list of newline-separated lines of `s`
(observer used to state the per-line properties; the source never splits). -/
def linesOf : PyStr → List PyStr
  | [] => [[]]
  | c :: rest =>
    if c = '\n' then [] :: linesOf rest
    else (c :: (linesOf rest).headI) :: (linesOf rest).tail

/-- Predicate: `s` contains no newline character. -/
def noNL (s : PyStr) : Prop := '\n' ∉ s

/-- The JSON value stored under an attribute key of a contact-details
record: an explicit `null` or a string.  Distinguishing `null` from a
missing key matters, because Python's `dict.get(key, default)` returns the
stored `None` — not the default — when the key is present with value
`null`, and an f-string then renders it as the literal string "None". -/
inductive JVal where
  | jnull : JVal
  | jstr : PyStr → JVal
deriving DecidableEq

/-- A contact-details record, restricted to the attributes the code reads via
`contact.get(...)`.  A field is `none` when the key is missing,
`some JVal.jnull` when present with JSON `null`, and `some (JVal.jstr s)`
when present with string value `s` (further attributes of the Monica API
payload are never inspected by the core). -/
structure Contact where
  first_name : Option JVal
  last_name : Option JVal
  job : Option JVal
  company : Option JVal
  email : Option JVal
  phone : Option JVal
  notes : Option JVal
deriving DecidableEq

/-- Python `contact.get(key, '')` for an `Option PyStr` (used by the
spec-side projection below). -/
def getS (f : Option PyStr) : PyStr := f.getD []

/-- The f-string rendering of `contact.get(key, '')`: a missing key gives
the default `''`, an explicit `null` gives `str(None) = "None"`, a string
gives itself. -/
def fstr (f : Option JVal) : PyStr :=
  match f with
  | none => []
  | some JVal.jnull => "None".toList
  | some (JVal.jstr s) => s

/-- Python truthiness of `contact.get(key)`: the key is present with a
non-empty string (a missing key gives `None`, and both `None` and `''` are
falsy). -/
def truthy (f : Option JVal) : Bool :=
  match f with
  | some (JVal.jstr s) => !s.isEmpty
  | _ => false

/-- The string value of an attribute, `''` when the attribute is absent,
`null` or empty.  In `create_contact_text` this renders `contact[key]`,
which is reached only under the `truthy` guard, where it is the stored
string. -/
def jstrS (f : Option JVal) : PyStr :=
  match f with
  | some (JVal.jstr s) => s
  | _ => []

/-- Model of `create_contact_text` in `utils/text_processing.py`: build the labelled
parts for the present/truthy attributes, drop falsy (empty) parts as
`filter(None, parts)` does, and join with newlines.  The name line uses the
f-string rendering `fstr` (so an explicit `null` name appears as "None"). -/
def create_contact_text (c : Contact) : PyStr :=
  let name := pyStrip (fstr c.first_name ++ ' ' :: fstr c.last_name)
  let parts : List PyStr :=
    (if name.isEmpty then [] else ["Name: ".toList ++ name])
    ++ (if truthy c.job then ["Job: ".toList ++ jstrS c.job] else [])
    ++ (if truthy c.company then ["Company: ".toList ++ jstrS c.company] else [])
    ++ (if truthy c.email then ["Email: ".toList ++ jstrS c.email] else [])
    ++ (if truthy c.phone then ["Phone: ".toList ++ jstrS c.phone] else [])
    ++ (if truthy c.notes then ["Notes: ".toList ++ jstrS c.notes] else [])
  joinNL (parts.filter (fun p => !p.isEmpty))

/-- One labelled line for an attribute, emitted exactly when the attribute is
present and non-empty (phrased after the spec, §4.2 text projection, for
comparison with `create_contact_text`). -/
def attrLine (label : String) (f : Option PyStr) : List PyStr :=
  match f with
  | none => []
  | some s => if s.isEmpty then [] else [label.toList ++ s]

/-- The string an attribute presents to the spec's projection: `some s` for
a string value, absent for a missing key or an explicit `null` (a `null`
attribute is not "present" in the spec's sense). -/
def jstrOpt (f : Option JVal) : Option PyStr :=
  match f with
  | some (JVal.jstr s) => some s
  | _ => none

/-- The spec's text projection (§4.2), one labelled line per present and
non-empty attribute among full name (first + last), job title, company,
email, phone, notes, in that order. -/
def specProjectionLines (c : Contact) : List PyStr :=
  attrLine "Name: "
    (some (pyStrip (jstrS c.first_name ++ ' ' :: jstrS c.last_name)))
  ++ attrLine "Job: " (jstrOpt c.job)
  ++ attrLine "Company: " (jstrOpt c.company)
  ++ attrLine "Email: " (jstrOpt c.email)
  ++ attrLine "Phone: " (jstrOpt c.phone)
  ++ attrLine "Notes: " (jstrOpt c.notes)

/-- Little-endian byte encoding of one float32 bit pattern, as
`numpy.float32.tobytes` produces on a little-endian host. -/
def f32ToBytes (x : Nat) : List Nat :=
  [x % 256, x / 256 % 256, x / 65536 % 256, x / 16777216 % 256]

/-- Model of `numpy.ndarray.tobytes` on a float32 vector: concatenation of the
little-endian 4-byte encodings. -/
def vecToBytes : List Nat → List Nat
  | [] => []
  | x :: xs => f32ToBytes x ++ vecToBytes xs

/-- Model of `numpy.frombuffer(_, dtype=np.float32)`: decode 4-byte groups back into
float32 bit patterns. -/
def bytesToVec : List Nat → List Nat
  | b0 :: b1 :: b2 :: b3 :: rest =>
    (b0 + 256 * b1 + 65536 * b2 + 16777216 * b3) :: bytesToVec rest
  | _ => []

/-- One row of the `embeddings` table of `storage/database.py`:
`contact_id INTEGER PRIMARY KEY, embedding BLOB, contact_data TEXT,
last_updated TIMESTAMP`.  The `contact_data` column carries the record
(`json.dumps`/`json.loads` being lossless); the timestamp is a `Nat`. -/
structure StoreEntry where
  contact_id : Nat
  embedding : List Nat
  contact_data : Contact
  last_updated : Nat
deriving DecidableEq

/-- The key column of the store. -/
def storeKeys (s : List StoreEntry) : List Nat := s.map (fun e => e.contact_id)

/-- Row count, `SELECT COUNT(*) FROM embeddings`. -/
def storageCount (s : List StoreEntry) : Nat := s.length

/-- Model of `MonicaRAGStorage.save_embedding`: `INSERT OR REPLACE` keyed on the
integer primary key `contact_id`, storing `embedding.tobytes()`, the
serialised record, and a fresh timestamp. -/
def save_embedding (cid : Nat) (emb : List Nat) (data : Contact) (now : Nat) :
    List StoreEntry → List StoreEntry
  | [] => [⟨cid, vecToBytes emb, data, now⟩]
  | e :: es =>
    if e.contact_id = cid then ⟨cid, vecToBytes emb, data, now⟩ :: es
    else e :: save_embedding cid emb data now es

/-- Model of `MonicaRAGStorage.get_all_embeddings`: every row, the vector decoded back
from its blob with `np.frombuffer(..., dtype=np.float32)` and the record
deserialised. -/
def get_all_embeddings (s : List StoreEntry) : List (Nat × (List Nat × Contact)) :=
  s.map (fun e => (e.contact_id, (bytesToVec e.embedding, e.contact_data)))

/-- The first store entry for a given id, if any (observer for frame facts). -/
def lookupEntry (cid : Nat) (s : List StoreEntry) : Option StoreEntry :=
  s.find? (fun e => e.contact_id == cid)

/-- A well-defined cosine-similarity value `num / √den2`: `num` is the dot
product `np.dot(q, e)` and `den2` the product `normSq q * normSq e`, so that
`√den2 = np.linalg.norm(q) * np.linalg.norm(e)`; `den2` is positive exactly
because the value is only formed when neither norm is zero. -/
structure Score where
  num : ℚ
  den2 : ℚ
  pos : 0 < den2

instance : DecidableEq Score := fun a b =>
  if h : a.num = b.num ∧ a.den2 = b.den2 then
    isTrue (by cases a; cases b; simp only at h; simp [h.1, h.2])
  else
    isFalse (by intro he; cases he; simp at h)

/-- Pointwise dot product `np.dot` of two equal-length float vectors
(idealised as exact rational arithmetic). -/
def dotQ : List ℚ → List ℚ → ℚ
  | a :: as, b :: bs => a * b + dotQ as bs
  | _, _ => 0

/-- Squared Euclidean norm, `np.linalg.norm(v) ** 2`. -/
def normSq (v : List ℚ) : ℚ := dotQ v v

/-- Nonnegativity of the squared norm (proof-level helper for `cosineSim`). -/
def normSq_nonneg (v : List ℚ) : 0 ≤ normSq v := by
  unfold normSq
  induction v with
  | nil => simp [dotQ]
  | cons a as ih => simpa [dotQ] using add_nonneg (mul_self_nonneg a) ih

/-- The similarity expression of `MonicaRAG.query`:
`np.dot(q, e) / (np.linalg.norm(q) * np.linalg.norm(e))`.  When either norm
is zero the denominator is zero (and so is the dot product), the float
division produces NaN, modelled as `none`; otherwise the value is
`dot / √(normSq q * normSq e)`, carried symbolically as a `Score`. -/
def cosineSim (q e : List ℚ) : Option Score :=
  if h : normSq q = 0 ∨ normSq e = 0 then none
  else
    some ⟨dotQ q e, normSq q * normSq e,
      mul_pos
        (lt_of_le_of_ne (normSq_nonneg q) (fun hq => (not_or.1 h).1 hq.symm))
        (lt_of_le_of_ne (normSq_nonneg e) (fun he => (not_or.1 h).2 he.symm))⟩

/-- Decidable comparison of two well-defined similarity values:
`a ≤ b` as real numbers, i.e. `a.num / √a.den2 ≤ b.num / √b.den2`, decided by
sign analysis and cross-multiplied squares. -/
def scoreLe (a b : Score) : Bool :=
  if a.num < 0 then
    if b.num < 0 then decide (b.num ^ 2 * a.den2 ≤ a.num ^ 2 * b.den2)
    else true
  else
    if b.num < 0 then false
    else decide (a.num ^ 2 * b.den2 ≤ b.num ^ 2 * a.den2)

/-- The key comparison CPython's sort performs, `key(x) < key(y)`: on
well-defined scores the float strict less-than; every comparison involving a
NaN key is `False` (IEEE-754 semantics, which is what makes sorting with NaN
keys misbehave). -/
def simLt : Option Score → Option Score → Bool
  | some a, some b => !(scoreLe b a)
  | _, _ => false

/-- Insertion into a CPython dict modelled as an insertion-ordered association
list: an existing key keeps its position and gets the new value, a new key is
appended at the end. -/
def dictInsert {α : Type} (k : Nat) (v : α) : List (Nat × α) → List (Nat × α)
  | [] => [(k, v)]
  | (k2, w) :: rest =>
    if k2 = k then (k, v) :: rest else (k2, w) :: dictInsert k v rest

/-- The mutable state of `MonicaRAG`: the persistent store plus the two
in-memory mirror dicts `self.embeddings` (id → float32 vector, kept as bit
patterns) and `self.contact_data` (id → record). -/
structure RAGState where
  store : List StoreEntry
  embeddings : List (Nat × List Nat)
  contact_data : List (Nat × Contact)
deriving DecidableEq

/-- The Contact Source Adapter (`MonicaAPIClient`), an opaque collaborator:
`get_contacts()` yields summary records of which the build loop reads only
`contact['id']`, and `get_contact_details(id)` yields the full record. -/
structure ApiClient where
  contacts : List Nat
  details : Nat → Contact

/-- The body of the per-contact loop of `MonicaRAG.update_embeddings`: fetch
details, project to text, embed (`encode` is the opaque SentenceTransformer),
store in both in-memory dicts and upsert into SQLite.  `now` is the
wall-clock time used for `CURRENT_TIMESTAMP`. -/
def buildStep (api : ApiClient) (encode : PyStr → List Nat) (now : Nat)
    (s : RAGState) (cid : Nat) : RAGState :=
  let details := api.details cid
  let emb := encode (create_contact_text details)
  { store := save_embedding cid emb details now s.store
    embeddings := dictInsert cid emb s.embeddings
    contact_data := dictInsert cid details s.contact_data }

/-- Model of `MonicaRAG.update_embeddings`: run the per-contact loop over every
contact returned by `get_contacts()`. -/
def update_embeddings (api : ApiClient) (encode : PyStr → List Nat) (now : Nat)
    (st : RAGState) : RAGState :=
  api.contacts.foldl (buildStep api encode now) st

/-- The body of the per-row loop of `MonicaRAG._load_from_storage`. -/
def loadStep (s : RAGState) (p : Nat × (List Nat × Contact)) : RAGState :=
  { s with
    embeddings := dictInsert p.1 p.2.1 s.embeddings
    contact_data := dictInsert p.1 p.2.2 s.contact_data }

/-- Model of `MonicaRAG._load_from_storage`: copy every stored entry into the two
in-memory dicts. -/
def load_from_storage (st : RAGState) : RAGState :=
  (get_all_embeddings st.store).foldl loadStep st

/-- Model of `MonicaRAG._has_embeddings`.  The source executes
`with self.storage.db_path as conn:` where `db_path` is a `str`, not a
connection; entering a `with` block on a string raises `AttributeError`
(`str` has no `__enter__`/`__exit__`), the surrounding `except Exception`
logs and returns `False`.  The stored row count is therefore never consulted
and the function is constantly `False`, whatever the store holds. -/
def has_embeddings (_st : RAGState) : Bool := false

/-- Model of `MonicaRAG.initialize`: load from storage and return `True` when
`_has_embeddings()` holds, otherwise run a full `update_embeddings()` build
and return `False`. -/
def init_rag (api : ApiClient) (encode : PyStr → List Nat) (now : Nat)
    (st : RAGState) : Bool × RAGState :=
  if has_embeddings st then (true, load_from_storage st)
  else (false, update_embeddings api encode now st)

/-- Interpretation of a vector of float32 bit patterns as exact rationals. -/
def valVec (val : Nat → ℚ) (v : List Nat) : List ℚ := v.map val

/-- The `similarities` dict built by the loop in `MonicaRAG.query`: one pair
per mirror entry, in mirror insertion order. -/
def similarityList (val : Nat → ℚ) (qv : List Nat)
    (embs : List (Nat × List Nat)) : List (Nat × Option Score) :=
  embs.map (fun p => (p.1, cosineSim (valVec val qv) (valVec val p.2)))

/-- Python list slicing `l[:k]` for an `int` bound `k`: a nonnegative bound
takes the first `k` elements, a negative bound `-m` drops the last `m`. -/
def pySlice {α : Type} (l : List α) (k : Int) : List α :=
  if 0 ≤ k then l.take k.toNat else l.take (l.length - (-k).toNat)

/-- In the ascending stable sort, `x` (originally earlier) may stay before
`y` exactly when `key(y) < key(x)` is `False` — the only predicate CPython's
sort consults (for `List.insertionSort`). -/
def ascRel (x y : Nat × Option Score) : Prop := simLt y.2 x.2 = false

instance : DecidableRel ascRel := fun x y => decEq (simLt y.2 x.2) false

/-- The sorted similarity list of `MonicaRAG.query`
(`sorted(similarities.items(), key=lambda x: x[1], reverse=True)`).
CPython implements `reverse=True` by reversing the list, running its stable
ascending sort driven solely by `<` on the keys, and reversing again; that
construction is modelled verbatim, with the ascending stage as a stable
insertion sort over the same `<` (`simLt`, all-False on NaN).  Whenever every
key is well defined, `<` induces a total preorder and every stable ascending
sort — timsort included — produces the identical output, so the model is
exact; with a NaN key CPython's placement is implementation-defined, and the
only theorems that evaluate the sort on a NaN key (the C2 and C3
counterexamples below) do so on a singleton list and on an input where
CPython demonstrably leaves the list unchanged, as this model also does. -/
def rankedSims (val : Nat → ℚ) (encode : PyStr → List Nat) (st : RAGState)
    (text : PyStr) : List (Nat × Option Score) :=
  ((similarityList val (encode text) st.embeddings).reverse.insertionSort
    ascRel).reverse

/-- One element of the result list of `MonicaRAG.query`:
`{'contact': ..., 'similarity': ...}`. -/
structure QueryResult where
  contact : Contact
  similarity : Option Score
deriving DecidableEq

/-- The result-building loop of `MonicaRAG.query` over a list of
`(contact_id, similarity)` pairs; `self.contact_data[contact_id]` raises
`KeyError` when the id is missing, modelled as `none`. -/
def buildResults (cd : List (Nat × Contact)) :
    List (Nat × Option Score) → Option (List QueryResult)
  | [] => some []
  | p :: rest =>
    match cd.lookup p.1, buildResults cd rest with
    | some c, some acc => some (⟨c, p.2⟩ :: acc)
    | _, _ => none

/-- Model of `MonicaRAG.query`: embed the query text, score every mirror vector,
sort descending, slice to `top_k`, and attach each id's record. -/
def query (val : Nat → ℚ) (encode : PyStr → List Nat) (st : RAGState)
    (text : PyStr) (top_k : Int) : Option (List QueryResult) :=
  buildResults st.contact_data (pySlice (rankedSims val encode st text) top_k)

/-- The full descending ranking (no slicing): what `query` would return with
`top_k` no smaller than the mirror size. -/
def rankedResults (val : Nat → ℚ) (encode : PyStr → List Nat) (st : RAGState)
    (text : PyStr) : Option (List QueryResult) :=
  buildResults st.contact_data (rankedSims val encode st text)

/-- States of the Retrieval Engine reachable from construction
(`MonicaRAG.__init__`: empty mirrors over an arbitrary pre-existing store) by
any sequence of `initialize` / `update_embeddings` calls; `query` does not
modify the state. -/
inductive Reachable : RAGState → Prop
  | boot (store : List StoreEntry) : Reachable ⟨store, [], []⟩
  | update (api : ApiClient) (encode : PyStr → List Nat) (now : Nat)
      {s : RAGState} :
      Reachable s → Reachable (update_embeddings api encode now s)
  | init (api : ApiClient) (encode : PyStr → List Nat) (now : Nat)
      {s : RAGState} :
      Reachable s → Reachable (init_rag api encode now s).2

/-! Concrete sample data used by the closed witness and counterexample
theorems below. -/

/-- A sample contact record. -/
def cAlice : Contact :=
  ⟨some (JVal.jstr "Alice".toList), some (JVal.jstr "Smith".toList),
   some (JVal.jstr "Engineer".toList), some (JVal.jstr "Acme".toList),
   none, none, none⟩

/-- A second sample contact record (no name, no company). -/
def cBare : Contact :=
  ⟨none, none, some (JVal.jstr "Clerk".toList), none, none, none, none⟩

/-- A sample record whose name keys are present with explicit JSON `null`. -/
def cNull : Contact := ⟨some JVal.jnull, some JVal.jnull, none, none, none,
  none, none⟩

/-- A sample bit-pattern interpretation: read the pattern as the rational it
spells (any interpretation works for the universally quantified theorems). -/
def val0 : Nat → ℚ := fun n => (n : ℚ)

/-- A sample embedding function: every text maps to the vector `[1, 0]`. -/
def enc0 : PyStr → List Nat := fun _ => [1, 0]

/-- Sample state: one mirror entry whose vector is the zero vector. -/
def stZero : RAGState := ⟨[], [(7, [0, 0])], [(7, cAlice)]⟩

/-- Sample state: a single mirror entry. -/
def stOne : RAGState := ⟨[], [(1, [1, 0])], [(1, cAlice)]⟩

/-- Sample state: three mirror entries. -/
def stThree : RAGState :=
  ⟨[], [(1, [1, 0]), (2, [0, 1]), (3, [1, 1])],
   [(1, cAlice), (2, cBare), (3, cAlice)]⟩

/-- Sample state: three mirror entries whose similarity scores against the
`enc0`/`val0` query come out as roughly 0.316, NaN (zero vector), and 1, in
mirror insertion order. -/
def stNaN : RAGState :=
  ⟨[], [(1, [1, 3]), (2, [0, 0]), (3, [1, 0])],
   [(1, cAlice), (2, cBare), (3, cAlice)]⟩

/-- Sample state: empty mirrors over a non-empty persistent store. -/
def stNE : RAGState := ⟨[⟨1, vecToBytes [0], cAlice, 0⟩], [], []⟩

/-- A sample Contact Source Adapter. -/
def apiA : ApiClient := ⟨[2], fun _ => cAlice⟩

/-! Byte-level round trip of float32 vectors. -/

theorem bytesToVec_f32 (x : Nat) (hx : x < 4294967296) (bs : List Nat) :
    bytesToVec (f32ToBytes x ++ bs) = x :: bytesToVec bs := by
  have hs : x % 256 + 256 * (x / 256 % 256) + 65536 * (x / 65536 % 256)
      + 16777216 * (x / 16777216 % 256) = x := by omega
  simp [f32ToBytes, bytesToVec, hs]

theorem bytesToVec_vecToBytes :
    ∀ v : List Nat, (∀ x ∈ v, x < 4294967296) → bytesToVec (vecToBytes v) = v := by
  intro v
  induction v with
  | nil => intro _; rfl
  | cons x xs ih =>
    intro h
    rw [vecToBytes, bytesToVec_f32 x (h x (by simp)) (vecToBytes xs),
      ih (fun y hy => h y (by simp [hy]))]

/-! Effect of `save_embedding` on the store. -/

theorem lookup_get_all_save (cid : Nat) (v : List Nat) (r : Contact) (t : Nat) :
    ∀ s : List StoreEntry,
      List.lookup cid (get_all_embeddings (save_embedding cid v r t s)) =
        some (bytesToVec (vecToBytes v), r) := by
  intro s
  induction s with
  | nil => simp [save_embedding, get_all_embeddings, List.lookup]
  | cons e es ih =>
    by_cases h : e.contact_id = cid
    · simp [save_embedding, h, get_all_embeddings, List.lookup]
    · have h2 : (cid == e.contact_id) = false := by
        simp [Ne.symm h]
      simpa [save_embedding, h, get_all_embeddings, List.lookup, h2] using ih

theorem storeKeys_save (cid : Nat) (v : List Nat) (r : Contact) (t : Nat) :
    ∀ s : List StoreEntry,
      storeKeys (save_embedding cid v r t s) =
        if cid ∈ storeKeys s then storeKeys s else storeKeys s ++ [cid] := by
  intro s
  induction s with
  | nil => simp [save_embedding, storeKeys]
  | cons e es ih =>
    by_cases h : e.contact_id = cid
    · simp [save_embedding, h, storeKeys]
    · have hne : ¬(cid = e.contact_id) := fun hc => h hc.symm
      simp only [save_embedding, if_neg h, storeKeys, List.map_cons]
      rw [show (List.map (fun e => e.contact_id) (save_embedding cid v r t es)) =
        storeKeys (save_embedding cid v r t es) from rfl, ih]
      simp only [storeKeys] at *
      by_cases hm : cid ∈ List.map (fun e => e.contact_id) es
      · rw [if_pos hm, if_pos (by simp [List.mem_cons, hm])]
      · rw [if_neg hm, if_neg (by simp [List.mem_cons, hne, hm]), List.cons_append]

/-- C4: for every vector of 32-bit floats and every serializable record,
calling `getAll()` after `upsert(id, vector, record)` returns, under that id,
the identical vector values (exact float equality, bit-for-bit — here the
identical float32 bit patterns, through `tobytes`/`frombuffer`) and a record
structure equal to the one written. -/
theorem c4_roundtrip (s : List StoreEntry) (cid : Nat) (v : List Nat)
    (r : Contact) (t : Nat) (hv : ∀ x ∈ v, x < 4294967296) :
    List.lookup cid (get_all_embeddings (save_embedding cid v r t s)) =
      some (v, r) := by
  rw [lookup_get_all_save, bytesToVec_vecToBytes v hv]

/-- Witness for C4 at a concrete store, id, vector and record. -/
theorem c4_roundtrip_witness :
    (∀ x ∈ [5, 4294967295], x < 4294967296) ∧
    List.lookup 3 (get_all_embeddings
      (save_embedding 3 [5, 4294967295] cAlice 11
        [⟨1, vecToBytes [9], cBare, 0⟩])) = some ([5, 4294967295], cAlice) :=
  ⟨by decide, c4_roundtrip [⟨1, vecToBytes [9], cBare, 0⟩] 3 [5, 4294967295]
    cAlice 11 (by decide)⟩

/-- C5: upserting the same id twice leaves exactly one Cache Entry for that
id, holding the second upsert's vector and record, and at-most-one-entry-per-
id is preserved (the `INTEGER PRIMARY KEY` uniqueness `save_embedding`
maintains). -/
theorem c5_upsert_idempotent (s : List StoreEntry) (cid : Nat)
    (v1 v2 : List Nat) (r1 r2 : Contact) (t1 t2 : Nat)
    (hnd : (storeKeys s).Nodup) (hv2 : ∀ x ∈ v2, x < 4294967296) :
    (storeKeys (save_embedding cid v2 r2 t2
      (save_embedding cid v1 r1 t1 s))).count cid = 1 ∧
    List.lookup cid (get_all_embeddings (save_embedding cid v2 r2 t2
      (save_embedding cid v1 r1 t1 s))) = some (v2, r2) ∧
    (storeKeys (save_embedding cid v2 r2 t2
      (save_embedding cid v1 r1 t1 s))).Nodup := by
  have hk1 : storeKeys (save_embedding cid v1 r1 t1 s) =
      if cid ∈ storeKeys s then storeKeys s else storeKeys s ++ [cid] :=
    storeKeys_save cid v1 r1 t1 s
  have hmem1 : cid ∈ storeKeys (save_embedding cid v1 r1 t1 s) := by
    rw [hk1]
    by_cases hm : cid ∈ storeKeys s
    · simp [hm]
    · simp [hm]
  have hnd1 : (storeKeys (save_embedding cid v1 r1 t1 s)).Nodup := by
    rw [hk1]
    by_cases hm : cid ∈ storeKeys s
    · simpa [hm] using hnd
    · simp [hm, List.nodup_append, hnd]
  have hk2 : storeKeys (save_embedding cid v2 r2 t2
      (save_embedding cid v1 r1 t1 s)) =
      storeKeys (save_embedding cid v1 r1 t1 s) := by
    rw [storeKeys_save, if_pos hmem1]
  refine ⟨?_, ?_, ?_⟩
  · rw [hk2]
    exact List.count_eq_one_of_mem hnd1 hmem1
  · rw [lookup_get_all_save, bytesToVec_vecToBytes v2 hv2]
  · rw [hk2]; exact hnd1

/-- Witness for C5 at a concrete store and two concrete upserts. -/
theorem c5_upsert_idempotent_witness :
    (storeKeys [⟨1, vecToBytes [9], cBare, 0⟩]).Nodup ∧
    (∀ x ∈ [4, 5], x < 4294967296) ∧
    ((storeKeys (save_embedding 1 [4, 5] cAlice 2
      (save_embedding 1 [2, 3] cBare 1 [⟨1, vecToBytes [9], cBare, 0⟩]))).count 1 = 1 ∧
    List.lookup 1 (get_all_embeddings (save_embedding 1 [4, 5] cAlice 2
      (save_embedding 1 [2, 3] cBare 1 [⟨1, vecToBytes [9], cBare, 0⟩]))) =
        some ([4, 5], cAlice) ∧
    (storeKeys (save_embedding 1 [4, 5] cAlice 2
      (save_embedding 1 [2, 3] cBare 1 [⟨1, vecToBytes [9], cBare, 0⟩]))).Nodup) :=
  ⟨by decide, by decide,
   c5_upsert_idempotent [⟨1, vecToBytes [9], cBare, 0⟩] 1 [2, 3] [4, 5]
     cBare cAlice 1 2 (by decide) (by decide)⟩

/-! Frame facts: `save_embedding` for one id never touches other ids. -/

theorem lookupEntry_save_ne (c2 cid : Nat) (v : List Nat) (r : Contact)
    (t : Nat) (h : c2 ≠ cid) :
    ∀ s : List StoreEntry,
      lookupEntry cid (save_embedding c2 v r t s) = lookupEntry cid s := by
  have hb : (c2 == cid) = false := by simp [h]
  intro s
  induction s with
  | nil => simp [save_embedding, lookupEntry, List.find?, hb]
  | cons e es ih =>
    by_cases he : e.contact_id = c2
    · simp [save_embedding, he, lookupEntry, List.find?, hb]
    · simp only [save_embedding, if_neg he, lookupEntry, List.find?]
      cases hc : (e.contact_id == cid)
      · simpa [lookupEntry] using ih
      · rfl

theorem mem_storeKeys_save (c2 : Nat) (v : List Nat) (r : Contact) (t : Nat)
    (s : List StoreEntry) (j : Nat) (hj : j ∈ storeKeys s) :
    j ∈ storeKeys (save_embedding c2 v r t s) := by
  rw [storeKeys_save]
  by_cases hm : c2 ∈ storeKeys s
  · simpa [hm] using hj
  · simp [hm, hj]

/-! Frame facts for the whole `update_embeddings` loop. -/

theorem foldl_buildStep_frame (api : ApiClient) (encode : PyStr → List Nat)
    (now : Nat) :
    ∀ (cids : List Nat) (st : RAGState) (cid : Nat), cid ∉ cids →
      lookupEntry cid (cids.foldl (buildStep api encode now) st).store =
        lookupEntry cid st.store := by
  intro cids
  induction cids with
  | nil => intro st cid _; rfl
  | cons c cs ih =>
    intro st cid hcid
    have h1 : cid ≠ c := fun hc => hcid (by simp [hc])
    have h2 : cid ∉ cs := fun hc => hcid (by simp [hc])
    rw [List.foldl_cons, ih _ _ h2]
    exact lookupEntry_save_ne c cid _ _ now (Ne.symm h1) st.store

theorem foldl_buildStep_mem (api : ApiClient) (encode : PyStr → List Nat)
    (now : Nat) :
    ∀ (cids : List Nat) (st : RAGState) (j : Nat), j ∈ storeKeys st.store →
      j ∈ storeKeys (cids.foldl (buildStep api encode now) st).store := by
  intro cids
  induction cids with
  | nil => intro st j hj; exact hj
  | cons c cs ih =>
    intro st j hj
    rw [List.foldl_cons]
    exact ih _ j (mem_storeKeys_save c _ _ now st.store j hj)

/-- C6: `update_embeddings` leaves every Cache Entry whose id is absent from
the fetched record set unchanged in the store (same vector, record and
timestamp), and deletes no entry: every id present before is present after. -/
theorem c6_no_deletion (api : ApiClient) (encode : PyStr → List Nat)
    (now : Nat) (st : RAGState) (cid : Nat) (h : cid ∉ api.contacts) :
    lookupEntry cid (update_embeddings api encode now st).store =
      lookupEntry cid st.store ∧
    ∀ j ∈ storeKeys st.store,
      j ∈ storeKeys (update_embeddings api encode now st).store := by
  constructor
  · exact foldl_buildStep_frame api encode now api.contacts st cid h
  · intro j hj
    exact foldl_buildStep_mem api encode now api.contacts st j hj

/-- Witness for C6: id 1 is in the store, the adapter fetches only id 2, and
after `update_embeddings` the entry for id 1 is unchanged. -/
theorem c6_no_deletion_witness :
    (1 ∉ apiA.contacts) ∧
    (lookupEntry 1 (update_embeddings apiA enc0 5 stNE).store =
      lookupEntry 1 stNE.store ∧
    ∀ j ∈ storeKeys stNE.store,
      j ∈ storeKeys (update_embeddings apiA enc0 5 stNE).store) :=
  ⟨by decide, c6_no_deletion apiA enc0 5 stNE 1 (by decide)⟩

/-! Key alignment of the two in-memory mirror dicts. -/

theorem keys_dictInsert {α : Type} (k : Nat) (v : α) :
    ∀ m : List (Nat × α),
      (dictInsert k v m).map Prod.fst =
        if k ∈ m.map Prod.fst then m.map Prod.fst else m.map Prod.fst ++ [k] := by
  intro m
  induction m with
  | nil => simp [dictInsert]
  | cons p rest ih =>
    by_cases h : p.1 = k
    · simp [dictInsert, h]
    · have hne : ¬(k = p.1) := fun hc => h hc.symm
      simp only [dictInsert, List.map_cons]
      rw [if_neg h, List.map_cons, ih]
      by_cases hm : k ∈ rest.map Prod.fst
      · rw [if_pos hm, if_pos (by simp [List.mem_cons, hm])]
      · rw [if_neg hm, if_neg (by simp [List.mem_cons, hne, hm]), List.cons_append]

theorem aligned_buildStep (api : ApiClient) (encode : PyStr → List Nat)
    (now : Nat) (s : RAGState) (cid : Nat)
    (h : s.embeddings.map Prod.fst = s.contact_data.map Prod.fst) :
    (buildStep api encode now s cid).embeddings.map Prod.fst =
      (buildStep api encode now s cid).contact_data.map Prod.fst := by
  simp only [buildStep]
  rw [keys_dictInsert, keys_dictInsert, h]

theorem aligned_foldl_buildStep (api : ApiClient) (encode : PyStr → List Nat)
    (now : Nat) :
    ∀ (cids : List Nat) (st : RAGState),
      st.embeddings.map Prod.fst = st.contact_data.map Prod.fst →
      (cids.foldl (buildStep api encode now) st).embeddings.map Prod.fst =
        (cids.foldl (buildStep api encode now) st).contact_data.map Prod.fst := by
  intro cids
  induction cids with
  | nil => intro st h; exact h
  | cons c cs ih =>
    intro st h
    rw [List.foldl_cons]
    exact ih _ (aligned_buildStep api encode now st c h)

theorem aligned_loadStep (s : RAGState) (p : Nat × (List Nat × Contact))
    (h : s.embeddings.map Prod.fst = s.contact_data.map Prod.fst) :
    (loadStep s p).embeddings.map Prod.fst =
      (loadStep s p).contact_data.map Prod.fst := by
  simp only [loadStep]
  rw [keys_dictInsert, keys_dictInsert, h]

theorem aligned_foldl_loadStep :
    ∀ (rows : List (Nat × (List Nat × Contact))) (st : RAGState),
      st.embeddings.map Prod.fst = st.contact_data.map Prod.fst →
      (rows.foldl loadStep st).embeddings.map Prod.fst =
        (rows.foldl loadStep st).contact_data.map Prod.fst := by
  intro rows
  induction rows with
  | nil => intro st h; exact h
  | cons p ps ih =>
    intro st h
    rw [List.foldl_cons]
    exact ih _ (aligned_loadStep st p h)

/-- C9: in every reachable state of the Retrieval Engine the key sequence of
the id-to-vector mirror equals the key sequence of the id-to-record mirror
(hence equal key sets), so every scored id has a record to return. -/
theorem c9_mirrors_aligned (s : RAGState) (h : Reachable s) :
    s.embeddings.map Prod.fst = s.contact_data.map Prod.fst := by
  induction h with
  | boot store => rfl
  | update api encode now _ ih =>
    exact aligned_foldl_buildStep api encode now _ _ ih
  | init api encode now _ ih =>
    simp only [init_rag, has_embeddings, Bool.false_eq_true, if_false]
    exact aligned_foldl_buildStep api encode now _ _ ih

/-- Witness for C9 at a concrete reachable state (one build over an empty
construction state). -/
theorem c9_mirrors_aligned_witness :
    (update_embeddings apiA enc0 0 ⟨[], [], []⟩).embeddings.map Prod.fst =
      (update_embeddings apiA enc0 0 ⟨[], [], []⟩).contact_data.map Prod.fst :=
  c9_mirrors_aligned _ (Reachable.update apiA enc0 0 (Reachable.boot []))

/-- C1, at the failing input: the persistent store holds one entry, yet
`initialize` returns `false` (claimed: `true`) and takes the
`update_embeddings` rebuild path through the Contact Source Adapter, so the
in-memory mirror afterwards holds the adapter's contact (id 2) and not the
stored entry (id 1).  The cause is `_has_embeddings`'s `with
self.storage.db_path as conn:` — entering a `with` block on a `str` raises
`AttributeError`, the `except` returns `False`, and the load path is dead. -/
theorem c1_init_bug :
    storageCount stNE.store = 1 ∧
    (init_rag apiA enc0 0 stNE).1 = false ∧
    (init_rag apiA enc0 0 stNE).2.embeddings = [(2, [1, 0])] ∧
    (init_rag apiA enc0 0 stNE).2.contact_data = [(2, cAlice)] := by
  refine ⟨rfl, rfl, ?_, ?_⟩ <;> decide

/-- C8: `query` on an empty mirror returns an empty sequence (a value, never
an error), for every query text and every `topK`. -/
theorem c8_empty_mirror (val : Nat → ℚ) (encode : PyStr → List Nat)
    (store : List StoreEntry) (cd : List (Nat × Contact)) (text : PyStr)
    (k : Int) :
    query val encode ⟨store, [], cd⟩ text k = some [] := by
  simp [query, rankedSims, similarityList, pySlice, buildResults]

/-! Order properties of the score comparison. -/

theorem scoreLe_trans (a b c : Score) (h1 : scoreLe a b = true)
    (h2 : scoreLe b c = true) : scoreLe a c = true := by
  have pa := a.pos
  have pb := b.pos
  have pc := c.pos
  unfold scoreLe at h1 h2 ⊢
  split_ifs at h1 h2 ⊢ <;>
    simp only [decide_eq_true_eq] at h1 h2 ⊢ <;>
    try trivial
  · nlinarith [mul_le_mul_of_nonneg_right h1 pc.le,
      mul_le_mul_of_nonneg_right h2 pa.le, mul_pos pa pc, sq_nonneg a.num,
      sq_nonneg b.num, sq_nonneg c.num]
  · nlinarith [mul_le_mul_of_nonneg_right h1 pc.le,
      mul_le_mul_of_nonneg_right h2 pa.le, mul_pos pa pc, sq_nonneg a.num,
      sq_nonneg b.num, sq_nonneg c.num]

theorem scoreLe_total (a b : Score) :
    scoreLe a b = true ∨ scoreLe b a = true := by
  unfold scoreLe
  split_ifs <;> simp only [decide_eq_true_eq] <;> try tauto
  · exact le_total _ _
  · exact le_total _ _

theorem ascRel_trans_valid (x y z : Nat × Option Score)
    (hx : x.2.isSome) (hy : y.2.isSome) (hz : z.2.isSome)
    (h1 : ascRel x y) (h2 : ascRel y z) : ascRel x z := by
  obtain ⟨a, ha⟩ := Option.isSome_iff_exists.1 hx
  obtain ⟨b, hb⟩ := Option.isSome_iff_exists.1 hy
  obtain ⟨c, hc⟩ := Option.isSome_iff_exists.1 hz
  simp only [ascRel, simLt, ha, hb, hc, Bool.not_eq_false'] at h1 h2 ⊢
  exact scoreLe_trans a b c h1 h2

theorem ascRel_total_valid (x y : Nat × Option Score)
    (hx : x.2.isSome) (hy : y.2.isSome) : ascRel x y ∨ ascRel y x := by
  obtain ⟨a, ha⟩ := Option.isSome_iff_exists.1 hx
  obtain ⟨b, hb⟩ := Option.isSome_iff_exists.1 hy
  simp only [ascRel, simLt, ha, hb, Bool.not_eq_false']
  exact scoreLe_total a b

/-! Sortedness of the ascending stage on well-defined keys.  (With a NaN key
the comparator is not transitive — exactly the CPython failure mode the C3
counterexample exhibits — so these lemmas carry validity hypotheses.) -/

theorem pairwise_orderedInsert_valid (x : Nat × Option Score)
    (hx : x.2.isSome) :
    ∀ l : List (Nat × Option Score), (∀ y ∈ l, y.2.isSome) →
      l.Pairwise ascRel → (l.orderedInsert ascRel x).Pairwise ascRel := by
  intro l
  induction l with
  | nil =>
    intro _ _
    simp [List.orderedInsert]
  | cons b t ih =>
    intro hv hp
    rw [List.orderedInsert]
    by_cases hr : ascRel x b
    · rw [if_pos hr]
      refine List.Pairwise.cons ?_ hp
      intro y hy
      rcases List.mem_cons.1 hy with rfl | hyt
      · exact hr
      · exact ascRel_trans_valid x b y hx (hv b (by simp))
          (hv y (by simp [hyt])) hr (List.rel_of_pairwise_cons hp hyt)
    · rw [if_neg hr]
      refine List.Pairwise.cons ?_
        (ih (fun y hy => hv y (by simp [hy])) (List.Pairwise.of_cons hp))
      intro y hy
      rcases (List.mem_orderedInsert ascRel).1 hy with heq | hyt
      · rw [heq]
        rcases ascRel_total_valid x b hx (hv b (by simp)) with h | h
        · exact absurd h hr
        · exact h
      · exact List.rel_of_pairwise_cons hp hyt

theorem pairwise_insertionSort_valid :
    ∀ l : List (Nat × Option Score), (∀ y ∈ l, y.2.isSome) →
      (l.insertionSort ascRel).Pairwise ascRel := by
  intro l
  induction l with
  | nil => intro _; simp [List.insertionSort]
  | cons a t ih =>
    intro hv
    rw [List.insertionSort]
    exact pairwise_orderedInsert_valid a (hv a (by simp)) _
      (fun y hy => hv y (by simp [(List.mem_insertionSort ascRel).1 hy]))
      (ih (fun y hy => hv y (by simp [hy])))

/-! Behaviour of the result-building loop. -/

theorem buildResults_some (cd : List (Nat × Contact)) :
    ∀ l : List (Nat × Option Score),
      (∀ p ∈ l, (cd.lookup p.1).isSome) →
      ∃ r, buildResults cd l = some r ∧
        r.map (fun x => x.similarity) = l.map Prod.snd := by
  intro l
  induction l with
  | nil => intro _; exact ⟨[], rfl, rfl⟩
  | cons p rest ih =>
    intro h
    obtain ⟨c, hc⟩ := Option.isSome_iff_exists.1 (h p (by simp))
    obtain ⟨r, hr, hmap⟩ := ih (fun q hq => h q (by simp [hq]))
    exact ⟨⟨c, p.2⟩ :: r, by simp [buildResults, hc, hr], by simp [hmap]⟩

theorem buildResults_take (cd : List (Nat × Contact)) :
    ∀ (l : List (Nat × Option Score)) (r : List QueryResult) (n : Nat),
      buildResults cd l = some r →
      buildResults cd (l.take n) = some (r.take n) := by
  intro l
  induction l with
  | nil =>
    intro r n h
    simp only [buildResults] at h
    simp [← Option.some_inj.1 h, buildResults]
  | cons p rest ih =>
    intro r n h
    simp only [buildResults] at h
    cases hl : cd.lookup p.1 with
    | none => rw [hl] at h; simp at h
    | some c =>
      rw [hl] at h
      cases hb : buildResults cd rest with
      | none => rw [hb] at h; simp at h
      | some acc =>
        rw [hb] at h
        simp only [Option.some_inj] at h
        cases n with
        | zero => simp [buildResults]
        | succ n =>
          have := ih acc n hb
          simp [buildResults, hl, this, ← h]

/-- C3, counterexample: with similarity scores 1/√10 ≈ 0.316, NaN (a
zero-magnitude stored vector) and 1 in mirror insertion order, `query`
returns the list unchanged — all comparisons against the NaN key are False,
so CPython's sort (a single "ascending" run over the reversed list; this
model computes the same output) moves nothing — and the first returned
result's score is strictly below the last one's, refuting "ordered by
non-increasing cosine-similarity score". -/
theorem c3_counterexample :
    query val0 enc0 stNaN "q".toList 3 =
      some [⟨cAlice, some ⟨1, 10, by norm_num⟩⟩, ⟨cBare, none⟩,
        ⟨cAlice, some ⟨1, 1, by norm_num⟩⟩] ∧
    simLt (some ⟨1, 10, by norm_num⟩) (some ⟨1, 1, by norm_num⟩) = true := by
  constructor
  · norm_num [query, rankedSims, similarityList, valVec, enc0, stNaN, val0,
      cosineSim, normSq, dotQ, pySlice, buildResults, List.lookup, ascRel,
      simLt, scoreLe, List.insertionSort, List.orderedInsert]
    simp
  · norm_num [simLt, scoreLe]

/-- C3 as amended: for a mirror of N vectors whose similarity scores are all
well defined (neither the query embedding nor any stored vector has zero
magnitude) and every `topK = k ≥ 0` (negative bounds are settled under C10),
`query` succeeds and returns at most `min(k, N)` results, pairwise ordered
by non-increasing similarity score (no earlier result's score is below a
later one's); when a NaN score is present the ordering can fail, see the
counterexample. -/
theorem c3_query_ordering (val : Nat → ℚ) (encode : PyStr → List Nat)
    (st : RAGState) (text : PyStr) (k : Int) (hk : 0 ≤ k)
    (hcov : ∀ p ∈ st.embeddings, (st.contact_data.lookup p.1).isSome)
    (hq : normSq (valVec val (encode text)) ≠ 0)
    (hv : ∀ p ∈ st.embeddings, normSq (valVec val p.2) ≠ 0) :
    ∃ res, query val encode st text k = some res ∧
      res.length ≤ min k.toNat st.embeddings.length ∧
      res.Pairwise
        (fun r1 r2 => simLt r1.similarity r2.similarity = false) := by
  have hvsims : ∀ p ∈ similarityList val (encode text) st.embeddings,
      p.2.isSome := by
    intro p hp
    obtain ⟨q2, hq2, rfl⟩ := List.mem_map.1 hp
    simp only [cosineSim]
    rw [dif_neg (not_or.2 ⟨hq, hv q2 hq2⟩)]
    rfl
  have hmem : ∀ p ∈ pySlice (rankedSims val encode st text) k,
      (st.contact_data.lookup p.1).isSome := by
    intro p hp
    have hp1 : p ∈ rankedSims val encode st text := by
      simp only [pySlice, if_pos hk] at hp
      exact List.take_subset _ _ hp
    have hp2 : p ∈ similarityList val (encode text) st.embeddings := by
      simpa [rankedSims, List.mem_reverse, List.mem_insertionSort] using hp1
    obtain ⟨q2, hq2, hpq⟩ := List.mem_map.1 hp2
    rw [← hpq]
    exact hcov q2 hq2
  obtain ⟨res, hres, hmap⟩ := buildResults_some st.contact_data _ hmem
  refine ⟨res, hres, ?_, ?_⟩
  · have hlen : res.length =
        (pySlice (rankedSims val encode st text) k).length := by
      simpa using congrArg List.length hmap
    have hlen2 : (rankedSims val encode st text).length =
        st.embeddings.length := by
      simp [rankedSims, List.length_insertionSort, similarityList]
    rw [hlen]
    simp only [pySlice, if_pos hk]
    rw [List.length_take, hlen2]
  · have hvrev : ∀ y ∈ (similarityList val (encode text)
        st.embeddings).reverse, y.2.isSome := by
      intro y hy
      exact hvsims y (List.mem_reverse.1 hy)
    have hsortedAsc := pairwise_insertionSort_valid _ hvrev
    have hranked : (rankedSims val encode st text).Pairwise
        (fun a b => simLt a.2 b.2 = false) := by
      unfold rankedSims
      exact List.pairwise_reverse.2 (hsortedAsc.imp (fun h => h))
    have hslice : (pySlice (rankedSims val encode st text) k).Pairwise
        (fun a b => simLt a.2 b.2 = false) := by
      simp only [pySlice, if_pos hk]
      exact hranked.sublist (List.take_sublist _ _)
    have h1 : ((pySlice (rankedSims val encode st text) k).map
        Prod.snd).Pairwise (fun a b => simLt a b = false) :=
      List.pairwise_map.2 hslice
    rw [← hmap] at h1
    exact List.pairwise_map.1 h1

/-- Witness for C3 (amended) at a concrete NaN-free three-entry mirror and
`topK = 2`. -/
theorem c3_query_ordering_witness :
    (0 ≤ (2 : Int)) ∧
    (∀ p ∈ stThree.embeddings, (stThree.contact_data.lookup p.1).isSome) ∧
    (normSq (valVec val0 (enc0 "q".toList)) ≠ 0) ∧
    (∀ p ∈ stThree.embeddings, normSq (valVec val0 p.2) ≠ 0) ∧
    (∃ res, query val0 enc0 stThree "q".toList 2 = some res ∧
      res.length ≤ min (2 : Int).toNat stThree.embeddings.length ∧
      res.Pairwise
        (fun r1 r2 => simLt r1.similarity r2.similarity = false)) :=
  ⟨by decide, by decide,
   by norm_num [normSq, dotQ, valVec, val0, enc0],
   by
     intro p hp
     simp [stThree] at hp
     rcases hp with rfl | rfl | rfl <;> norm_num [normSq, dotQ, valVec, val0],
   c3_query_ordering val0 enc0 stThree ("q".toList) 2 (by decide) (by decide)
     (by norm_num [normSq, dotQ, valVec, val0, enc0])
     (by
       intro p hp
       simp [stThree] at hp
       rcases hp with rfl | rfl | rfl <;>
         norm_num [normSq, dotQ, valVec, val0])⟩

/-- C10, counterexample at the boundary `m = N`: on a one-entry mirror,
`query(text, -1)` returns `some []` — the empty sequence — whereas the claim
asserts a non-empty result for every `0 < m ≤ N`. -/
theorem c10_counterexample : query val0 enc0 stOne "q".toList (-1) = some [] := by
  simp [query, rankedSims, similarityList, pySlice, buildResults, stOne]

/-- C10 as amended: `query(text, 0)` returns the empty sequence, and for
`0 < m ≤ N`, `query(text, -m)` returns (without error) the `N - m`
highest-ranked results — every result but the last `m` of the full
descending ranking — which is empty exactly at `m = N`. -/
theorem c10_slice_semantics (val : Nat → ℚ) (encode : PyStr → List Nat)
    (st : RAGState) (text : PyStr)
    (hcov : ∀ p ∈ st.embeddings, (st.contact_data.lookup p.1).isSome) :
    query val encode st text 0 = some [] ∧
    ∀ m : Nat, 0 < m → m ≤ st.embeddings.length →
      ∃ full, rankedResults val encode st text = some full ∧
        full.length = st.embeddings.length ∧
        query val encode st text (-(m : Int)) =
          some (full.take (full.length - m)) := by
  have hmemall : ∀ p ∈ rankedSims val encode st text,
      (st.contact_data.lookup p.1).isSome := by
    intro p hp
    have hp2 : p ∈ similarityList val (encode text) st.embeddings := by
      simpa [rankedSims, List.mem_insertionSort] using hp
    obtain ⟨q, hq, hpq⟩ := List.mem_map.1 hp2
    rw [← hpq]
    exact hcov q hq
  obtain ⟨full, hfull, hmap⟩ := buildResults_some st.contact_data _ hmemall
  have hlenr : (rankedSims val encode st text).length = st.embeddings.length := by
    simp [rankedSims, List.length_insertionSort, similarityList]
  have hlenfull : full.length = st.embeddings.length := by
    have := congrArg List.length hmap
    simpa [hlenr] using this
  constructor
  · simp [query, pySlice, buildResults]
  · intro m hm hmN
    refine ⟨full, hfull, hlenfull, ?_⟩
    have hneg : ¬(0 ≤ (-(m : Int))) := by
      have : (0 : Int) < m := by exact_mod_cast hm
      omega
    have hslice : pySlice (rankedSims val encode st text) (-(m : Int)) =
        (rankedSims val encode st text).take
          ((rankedSims val encode st text).length - m) := by
      simp only [pySlice, if_neg hneg, neg_neg, Int.toNat_natCast]
    rw [query, hslice, hlenr, ← hlenfull]
    exact buildResults_take st.contact_data _ full (full.length - m) hfull

/-- Witness for C10 (amended) at a concrete three-entry mirror. -/
theorem c10_slice_semantics_witness :
    (∀ p ∈ stThree.embeddings, (stThree.contact_data.lookup p.1).isSome) ∧
    (query val0 enc0 stThree "q".toList 0 = some [] ∧
    ∀ m : Nat, 0 < m → m ≤ stThree.embeddings.length →
      ∃ full, rankedResults val0 enc0 stThree "q".toList = some full ∧
        full.length = stThree.embeddings.length ∧
        query val0 enc0 stThree "q".toList (-(m : Int)) =
          some (full.take (full.length - m))) :=
  ⟨by decide, c10_slice_semantics val0 enc0 stThree ("q".toList) (by decide)⟩

/-- C2, counterexample: on a mirror whose single stored vector is the zero
vector, `query` reports the invalid NaN-like similarity (`none`) for that
pair — not similarity `0` as claimed: the division in `MonicaRAG.query` is
unguarded and `0/0` propagates into the returned results. -/
theorem c2_counterexample :
    query val0 enc0 stZero "x".toList 3 = some [⟨cAlice, none⟩] ∧
    ∀ sc : Score, (none : Option Score) ≠ some sc := by
  constructor
  · norm_num [query, rankedSims, similarityList, valVec, enc0, stZero, val0,
      cosineSim, normSq, dotQ, pySlice, buildResults, List.lookup, ascRel,
      simLt]
  · intro sc
    simp

/-- C2 as amended: whenever the query embedding or a stored vector has zero
magnitude, the similarity the code computes for that pair is the invalid
NaN-like value (`none`), not `0`: no zero-substitution guard exists. -/
theorem c2_zero_norm_nan (val : Nat → ℚ) (encode : PyStr → List Nat)
    (st : RAGState) (text : PyStr) (p : Nat × List Nat)
    (hp : p ∈ st.embeddings)
    (h : normSq (valVec val (encode text)) = 0 ∨
      normSq (valVec val p.2) = 0) :
    (p.1, (none : Option Score)) ∈
      similarityList val (encode text) st.embeddings := by
  refine List.mem_map.2 ⟨p, hp, ?_⟩
  simp only [cosineSim, dif_pos h]

/-- Witness for C2 (amended) at the concrete zero stored vector. -/
theorem c2_zero_norm_nan_witness :
    (((7, [0, 0]) : Nat × List Nat) ∈ stZero.embeddings) ∧
    (normSq (valVec val0 (enc0 "x".toList)) = 0 ∨
      normSq (valVec val0 [0, 0]) = 0) ∧
    ((7, (none : Option Score)) ∈
      similarityList val0 (enc0 "x".toList) stZero.embeddings) := by
  refine ⟨by decide, Or.inr (by norm_num [normSq, dotQ, valVec, val0]), ?_⟩
  exact c2_zero_norm_nan val0 enc0 stZero ("x".toList) (7, [0, 0]) (by decide)
    (Or.inr (by norm_num [normSq, dotQ, valVec, val0]))

/-! Line structure of joined parts. -/

theorem linesOf_noNL (p : PyStr) (h : noNL p) : linesOf p = [p] := by
  induction p with
  | nil => rfl
  | cons c cs ih =>
    have hc : ¬(c = '\n') := fun hc => h (by simp [hc])
    have hcs : noNL cs := fun hm => h (by simp [noNL, hm])
    simp [linesOf, hc, ih hcs]

theorem linesOf_append_newline (p s : PyStr) (h : noNL p) :
    linesOf (p ++ '\n' :: s) = p :: linesOf s := by
  induction p with
  | nil => simp [linesOf]
  | cons c cs ih =>
    have hc : ¬(c = '\n') := fun hc => h (by simp [hc])
    have hcs : noNL cs := fun hm => h (by simp [noNL, hm])
    simp [linesOf, hc, ih hcs]

theorem linesOf_joinNL :
    ∀ parts : List PyStr, (∀ p ∈ parts, noNL p) → parts ≠ [] →
      linesOf (joinNL parts) = parts := by
  intro parts
  induction parts with
  | nil => intro _ hne; exact absurd rfl hne
  | cons p ps ih =>
    intro h _
    cases ps with
    | nil => exact linesOf_noNL p (h p (by simp))
    | cons q qs =>
      rw [show joinNL (p :: q :: qs) = p ++ '\n' :: joinNL (q :: qs) from rfl,
        linesOf_append_newline p _ (h p (by simp)),
        ih (fun r hr => h r (by simp [hr])) (by simp)]

/-! Newline-freedom helpers and the shape of attribute lines. -/

theorem mem_pyStrip (s : PyStr) (a : Char) (h : a ∈ pyStrip s) : a ∈ s := by
  unfold pyStrip at h
  rw [List.mem_reverse] at h
  have h1 := (List.dropWhile_sublist _).subset h
  rw [List.mem_reverse] at h1
  exact (List.dropWhile_sublist _).subset h1

theorem noNL_pyStrip (s : PyStr) (h : noNL s) : noNL (pyStrip s) :=
  fun hm => h (mem_pyStrip s _ hm)

theorem noNL_append (p q : PyStr) (hp : noNL p) (hq : noNL q) :
    noNL (p ++ q) := by
  intro hm
  rcases List.mem_append.1 hm with h | h
  · exact hp h
  · exact hq h

theorem noNL_cons (c : Char) (s : PyStr) (hc : c ≠ '\n') (hs : noNL s) :
    noNL (c :: s) := by
  intro hm
  rcases List.mem_cons.1 hm with h | h
  · exact hc h.symm
  · exact hs h

theorem mem_attrLine_eq (lbl : String) (f : Option PyStr) (a : PyStr)
    (h : a ∈ attrLine lbl f) : a = lbl.toList ++ getS f := by
  cases f with
  | none => simp [attrLine] at h
  | some s =>
    cases hs : s.isEmpty with
    | true => rw [attrLine, if_pos hs] at h; simp at h
    | false =>
      rw [attrLine, if_neg (by simp [hs])] at h
      simpa [getS] using h

theorem getS_jstrOpt (f : Option JVal) : getS (jstrOpt f) = jstrS f := by
  cases f with
  | none => rfl
  | some v => cases v <;> rfl

theorem attrLine_eq (lbl : String) (f : Option JVal) :
    attrLine lbl (jstrOpt f) =
      if truthy f = true then [lbl.toList ++ jstrS f] else [] := by
  cases f with
  | none => simp [jstrOpt, attrLine, truthy]
  | some v =>
    cases v with
    | jnull => simp [jstrOpt, attrLine, truthy]
    | jstr s =>
      cases hs : s.isEmpty <;> simp [jstrOpt, attrLine, truthy, jstrS, hs]

theorem fstr_eq_jstrS (f : Option JVal) (h : f ≠ some JVal.jnull) :
    fstr f = jstrS f := by
  cases f with
  | none => rfl
  | some v =>
    cases v with
    | jnull => exact absurd rfl h
    | jstr s => rfl

/-! Explicit character lists of the six labels. -/

theorem nameL : "Name: ".toList = ['N', 'a', 'm', 'e', ':', ' '] := rfl

theorem jobL : "Job: ".toList = ['J', 'o', 'b', ':', ' '] := rfl

theorem companyL : "Company: ".toList =
    ['C', 'o', 'm', 'p', 'a', 'n', 'y', ':', ' '] := rfl

theorem emailL : "Email: ".toList = ['E', 'm', 'a', 'i', 'l', ':', ' '] := rfl

theorem phoneL : "Phone: ".toList = ['P', 'h', 'o', 'n', 'e', ':', ' '] := rfl

theorem notesL : "Notes: ".toList = ['N', 'o', 't', 'e', 's', ':', ' '] := rfl

/-- The built text equals the newline-join of the spec's projection lines,
for records whose name attributes are not explicit `null` (the case the
C7 counterexample shows the code getting wrong): the filtered `parts` list
of `create_contact_text` is exactly `specProjectionLines`. -/
theorem create_eq_spec (c : Contact)
    (hfn : c.first_name ≠ some JVal.jnull)
    (hln : c.last_name ≠ some JVal.jnull) :
    create_contact_text c = joinNL (specProjectionLines c) := by
  have hblk : ∀ (lbl : String) (f : Option JVal),
      (if truthy f = true then [lbl.toList ++ jstrS f] else []) =
        attrLine lbl (jstrOpt f) :=
    fun lbl f => (attrLine_eq lbl f).symm
  simp only [create_contact_text, fstr_eq_jstrS c.first_name hfn,
    fstr_eq_jstrS c.last_name hln]
  have hname : (if (pyStrip (jstrS c.first_name ++ ' ' ::
      jstrS c.last_name)).isEmpty = true then ([] : List PyStr)
      else ["Name: ".toList ++ pyStrip (jstrS c.first_name ++ ' ' ::
        jstrS c.last_name)]) =
      attrLine "Name: " (some (pyStrip (jstrS c.first_name ++ ' ' ::
        jstrS c.last_name))) := rfl
  rw [hname, hblk, hblk, hblk, hblk, hblk]
  rw [show (attrLine "Name: " (some (pyStrip (jstrS c.first_name ++ ' ' ::
      jstrS c.last_name))) ++ attrLine "Job: " (jstrOpt c.job) ++
      attrLine "Company: " (jstrOpt c.company) ++
      attrLine "Email: " (jstrOpt c.email) ++
      attrLine "Phone: " (jstrOpt c.phone) ++
      attrLine "Notes: " (jstrOpt c.notes)) =
      specProjectionLines c from rfl]
  congr 1
  rw [List.filter_eq_self]
  intro a ha
  simp only [specProjectionLines, List.append_assoc, List.mem_append] at ha
  rcases ha with h | h | h | h | h | h <;>
    rw [mem_attrLine_eq _ _ _ h] <;>
    simp [nameL, jobL, companyL, emailL, phoneL, notesL]

theorem noNL_specLines (c : Contact)
    (h1 : noNL (jstrS c.first_name)) (h2 : noNL (jstrS c.last_name))
    (h3 : noNL (jstrS c.job)) (h4 : noNL (jstrS c.company))
    (h5 : noNL (jstrS c.email)) (h6 : noNL (jstrS c.phone))
    (h7 : noNL (jstrS c.notes)) :
    ∀ p ∈ specProjectionLines c, noNL p := by
  intro p hp
  simp only [specProjectionLines, List.append_assoc, List.mem_append] at hp
  rcases hp with h | h | h | h | h | h
  · rw [mem_attrLine_eq _ _ _ h]
    exact noNL_append _ _ (by unfold noNL; decide)
      (noNL_pyStrip _ (noNL_append _ _ h1 (noNL_cons ' ' _ (by decide) h2)))
  · rw [mem_attrLine_eq _ _ _ h, getS_jstrOpt]
    exact noNL_append _ _ (by unfold noNL; decide) h3
  · rw [mem_attrLine_eq _ _ _ h, getS_jstrOpt]
    exact noNL_append _ _ (by unfold noNL; decide) h4
  · rw [mem_attrLine_eq _ _ _ h, getS_jstrOpt]
    exact noNL_append _ _ (by unfold noNL; decide) h5
  · rw [mem_attrLine_eq _ _ _ h, getS_jstrOpt]
    exact noNL_append _ _ (by unfold noNL; decide) h6
  · rw [mem_attrLine_eq _ _ _ h, getS_jstrOpt]
    exact noNL_append _ _ (by unfold noNL; decide) h7

theorem take_label_ne (a : Char) (rest v : PyStr) (ha : a ≠ 'C') :
    ((a :: rest) ++ v).take 9 ≠ "Company: ".toList := by
  intro h
  rw [companyL, List.cons_append] at h
  rw [show (a :: (rest ++ v)).take 9 = a :: (rest ++ v).take 8 from rfl] at h
  simp only [List.cons.injEq] at h
  exact ha h.1

/-- C7, counterexample: a record whose name keys hold explicit JSON `null`
(`cNull`) renders "Name: None None" — `contact.get('first_name', '')`
returns the stored `None`, not the default, and the f-string prints it as
the literal string "None" — although the spec's projection of that record
has no lines at all, since no attribute is present and non-empty. -/
theorem c7_counterexample :
    create_contact_text cNull = "Name: None None".toList ∧
    specProjectionLines cNull = [] := by
  constructor
  · decide
  · decide

/-- C7 as amended: for every record whose name attributes are not explicit
JSON `null` and whose attribute values are newline-free, the text
projection is the newline-join of one labelled line per present and
non-empty attribute (`specProjectionLines`, phrased from the spec); in
particular a record lacking `company` (absent, `null` or empty) yields no
line starting with "Company: ", and a record with company "Acme" yields the
line "Company: Acme".  A `null` name key falls outside: the code then emits
a Name line reading "None" (see the counterexample). -/
theorem c7_projection (c : Contact)
    (hfn : c.first_name ≠ some JVal.jnull)
    (hln : c.last_name ≠ some JVal.jnull)
    (h1 : noNL (jstrS c.first_name)) (h2 : noNL (jstrS c.last_name))
    (h3 : noNL (jstrS c.job)) (h4 : noNL (jstrS c.company))
    (h5 : noNL (jstrS c.email)) (h6 : noNL (jstrS c.phone))
    (h7 : noNL (jstrS c.notes)) :
    create_contact_text c = joinNL (specProjectionLines c) ∧
    ((c.company = none ∨ c.company = some JVal.jnull ∨
        c.company = some (JVal.jstr [])) →
      ∀ l ∈ linesOf (create_contact_text c), l.take 9 ≠ "Company: ".toList) ∧
    (c.company = some (JVal.jstr ("Acme".toList)) →
      "Company: Acme".toList ∈ linesOf (create_contact_text c)) := by
  have hnl := noNL_specLines c h1 h2 h3 h4 h5 h6 h7
  refine ⟨create_eq_spec c hfn hln, ?_, ?_⟩
  · intro hco l hl
    rw [create_eq_spec c hfn hln] at hl
    have hcoA : attrLine "Company: " (jstrOpt c.company) = [] := by
      rcases hco with hco | hco | hco <;> simp [jstrOpt, attrLine, hco]
    by_cases hsp : specProjectionLines c = []
    · rw [hsp] at hl
      have hle : l = [] := by simpa [joinNL, linesOf] using hl
      rw [hle]
      decide
    · rw [linesOf_joinNL _ hnl hsp] at hl
      simp only [specProjectionLines, List.append_assoc, List.mem_append] at hl
      rcases hl with h | h | h | h | h | h
      · rw [mem_attrLine_eq _ _ _ h, nameL]
        exact take_label_ne 'N' _ _ (by decide)
      · rw [mem_attrLine_eq _ _ _ h, jobL]
        exact take_label_ne 'J' _ _ (by decide)
      · rw [hcoA] at h
        simp at h
      · rw [mem_attrLine_eq _ _ _ h, emailL]
        exact take_label_ne 'E' _ _ (by decide)
      · rw [mem_attrLine_eq _ _ _ h, phoneL]
        exact take_label_ne 'P' _ _ (by decide)
      · rw [mem_attrLine_eq _ _ _ h, notesL]
        exact take_label_ne 'N' _ _ (by decide)
  · intro hco
    rw [create_eq_spec c hfn hln]
    have hmem : "Company: Acme".toList ∈ specProjectionLines c := by
      simp only [specProjectionLines, List.append_assoc, List.mem_append]
      right; right; left
      rw [hco,
        show attrLine "Company: "
            (jstrOpt (some (JVal.jstr ("Acme".toList)))) =
          ["Company: Acme".toList] from by decide]
      simp
    rw [linesOf_joinNL _ hnl (List.ne_nil_of_mem hmem)]
    exact hmem

/-- Witness for C7 (amended) at a concrete null-free record with company
"Acme". -/
theorem c7_projection_witness :
    (cAlice.first_name ≠ some JVal.jnull ∧
     cAlice.last_name ≠ some JVal.jnull ∧
     noNL (jstrS cAlice.first_name) ∧ noNL (jstrS cAlice.last_name) ∧
     noNL (jstrS cAlice.job) ∧ noNL (jstrS cAlice.company) ∧
     noNL (jstrS cAlice.email) ∧ noNL (jstrS cAlice.phone) ∧
     noNL (jstrS cAlice.notes)) ∧
    (create_contact_text cAlice = joinNL (specProjectionLines cAlice) ∧
    ((cAlice.company = none ∨ cAlice.company = some JVal.jnull ∨
        cAlice.company = some (JVal.jstr [])) →
      ∀ l ∈ linesOf (create_contact_text cAlice),
        l.take 9 ≠ "Company: ".toList) ∧
    (cAlice.company = some (JVal.jstr ("Acme".toList)) →
      "Company: Acme".toList ∈ linesOf (create_contact_text cAlice))) :=
  ⟨⟨by decide, by decide, by unfold noNL; decide, by unfold noNL; decide,
    by unfold noNL; decide, by unfold noNL; decide, by unfold noNL; decide,
    by unfold noNL; decide, by unfold noNL; decide⟩,
   c7_projection cAlice (by decide) (by decide)
     (by unfold noNL; decide) (by unfold noNL; decide)
     (by unfold noNL; decide) (by unfold noNL; decide)
     (by unfold noNL; decide) (by unfold noNL; decide)
     (by unfold noNL; decide)⟩
